import Mathlib

/-!
Verification development for the papert-claw server core: a shallow embedding
of the per-channel queue, the scheduler routing table and bridge, the
file-backed tool-output queue, the upload-selection policy, and the session
persistence step of the agent runner, together with theorems settling the
specified properties.
-/

namespace PapertClaw

/-! Character and string helpers mirroring the JavaScript primitives used by
the source (ASCII case folding, code-unit lexicographic comparison, and the
character classes of the regular expressions involved). -/

/-- Character at index i of a character list, if present. -/
def charAt? (cs : List Char) (i : Nat) : Option Char := (cs.drop i).head?

/-- Whitespace class of JavaScript regular expressions, restricted to ASCII. -/
def jsWhitespaceChar (c : Char) : Bool :=
  c == ' ' || c == '\t' || c == '\n' || c == '\r' || c == '\x0b' || c == '\x0c'

/-- Word-character class of JavaScript regular expressions. -/
def isWordChar (c : Char) : Bool := c.isAlphanum || c == '_'

/-- Tests whether the word w occurs in cs starting at index i. -/
def occursAt (cs : List Char) (i : Nat) (w : List Char) : Bool :=
  ((cs.drop i).take w.length) == w

/-- ASCII lower-casing, as String.prototype.toLowerCase on ASCII input. -/
def strLower (s : String) : String := String.mk (s.data.map Char.toLower)

/-- Tests whether p is a leading substring of s (String.prototype.startsWith). -/
def strStarts (s p : String) : Bool := (s.data.take p.data.length) == p.data

/-- Tests whether p is a trailing substring of s (String.prototype.endsWith). -/
def strEnds (s p : String) : Bool := (s.data.reverse.take p.data.length) == p.data.reverse

/-- Strict code-unit lexicographic comparison of character lists, as the
JavaScript < operator on strings. -/
def charListLt : List Char → List Char → Bool
  | _, [] => false
  | [], _ :: _ => true
  | a :: as, b :: bs => if a < b then true else if b < a then false else charListLt as bs

/-- Strict lexicographic comparison of strings, as the JavaScript < operator. -/
def jsStrLt (a b : String) : Bool := charListLt a.data b.data

/-- Containment of one string inside another, stated on the character lists. -/
def strContains (hay needle : String) : Prop :=
  ∃ p q : List Char, hay.data = p ++ needle.data ++ q

/-! Path model: posix-style absolute-path normalization mirroring the
node:path functions resolve, relative and basename as used by the source. -/

/-- Splits a character list on a separator character. -/
def splitCharAux (sep : Char) : List Char → List Char → List (List Char)
  | [], acc => [acc.reverse]
  | c :: rest, acc =>
      if c == sep then acc.reverse :: splitCharAux sep rest []
      else splitCharAux sep rest (c :: acc)

/-- Splits a path string on the slash separator. -/
def splitSlash (s : String) : List String := (splitCharAux '/' s.data []).map String.mk

/-- Resolves empty, dot and dot-dot path segments, as node:path resolution does
for an absolute path (a leading dot-dot at the root is dropped). -/
def normalizeSegs (segs : List String) : List String :=
  segs.foldl
    (fun acc seg =>
      if seg = "" || seg = "." then acc
      else if seg = ".." then acc.dropLast
      else acc ++ [seg])
    []

/-- Joins normalized segments back into an absolute path string. -/
def joinSegs (segs : List String) : String := "/" ++ String.intercalate "/" segs

/-- Normalization of an absolute path, as node:path resolve on one absolute
argument. -/
def jsResolveAbs (p : String) : String := joinSegs (normalizeSegs (splitSlash p))

/-- One-argument node:path resolve: an absolute path is normalized, a relative
one is resolved against the process working directory. -/
def jsResolve1 (cwd p : String) : String :=
  if strStarts p "/" then jsResolveAbs p else jsResolveAbs (cwd ++ "/" ++ p)

/-- Two-argument node:path resolve(base, p). -/
def jsResolve2 (cwd base p : String) : String :=
  if strStarts p "/" then jsResolveAbs p else jsResolve1 cwd (base ++ "/" ++ p)

/-- Drops the longest common leading run of two segment lists. -/
def dropCommonSegs : List String → List String → List String × List String
  | a :: as, b :: bs =>
      if a = b then dropCommonSegs as bs else (a :: as, b :: bs)
  | as, bs => (as, bs)

/-- node:path relative(f, t) for two absolute paths. -/
def jsRelativeAbs (f t : String) : String :=
  let fsegs := normalizeSegs (splitSlash f)
  let tsegs := normalizeSegs (splitSlash t)
  let pair := dropCommonSegs fsegs tsegs
  String.intercalate "/" (pair.1.map (fun _ => "..") ++ pair.2)

/-- node:path basename for a posix path. -/
def jsBasename (s : String) : String :=
  if s = "" then ""
  else
    let woTrail := (s.data.reverse.dropWhile (· == '/')).reverse
    if woTrail.isEmpty then "/"
    else String.mk ((woTrail.reverse.takeWhile (· != '/')).reverse)

/-- Ambient system state the source reaches through node:fs and node:path:
the working directory, file existence, and file modification times (a stat
call that throws is modelled as none). -/
structure SysEnv where
  cwd : String
  fileExists : String → Bool
  mtimeMs : String → Option Int

/-! SchedulerRoutes: the pure in-memory routing table of
scheduler-routes.ts, with the Map modelled as a function. -/

/-- Delivery mode of a scheduler route. -/
inductive RouteMode
  | dm
  | channel
deriving DecidableEq, Repr

/-- Route record identifying where scheduled output is delivered. -/
structure SchedulerRoute where
  channelId : String
  threadTs : Option String := none
  mode : RouteMode
deriving DecidableEq, Repr

/-- State of the SchedulerRoutes class: the latest observed route and the
per-job bindings. -/
structure SchedulerRoutes where
  latestRoute : Option SchedulerRoute
  routesByJobId : String → Option SchedulerRoute

/-- Freshly constructed SchedulerRoutes instance. -/
def emptyRoutes : SchedulerRoutes := ⟨none, fun _ => none⟩

/-- setLatestRoute(route) updates the fallback route. -/
def SchedulerRoutes.setLatestRoute (s : SchedulerRoutes) (route : SchedulerRoute) :
    SchedulerRoutes :=
  { s with latestRoute := some route }

/-- bindJob(jobId) snapshots the current latest route for the job; a no-op
when no latest route exists yet. -/
def SchedulerRoutes.bindJob (s : SchedulerRoutes) (jobId : String) : SchedulerRoutes :=
  match s.latestRoute with
  | none => s
  | some r => { s with routesByJobId := fun k => if k = jobId then some r else s.routesByJobId k }

/-- removeJob(jobId) deletes the binding for the job. -/
def SchedulerRoutes.removeJob (s : SchedulerRoutes) (jobId : String) : SchedulerRoutes :=
  { s with routesByJobId := fun k => if k = jobId then none else s.routesByJobId k }

/-- resolve(jobId) returns the bound route if present, else the latest route. -/
def SchedulerRoutes.resolve (s : SchedulerRoutes) (jobId : String) : Option SchedulerRoute :=
  match s.routesByJobId jobId with
  | some r => some r
  | none => s.latestRoute

/-- Method calls of the SchedulerRoutes class, for reasoning about call
sequences. -/
inductive RoutesOp
  | setLatest (r : SchedulerRoute)
  | bind (j : String)
  | remove (j : String)
deriving DecidableEq

/-- Applies one SchedulerRoutes method call. -/
def applyRoutesOp (s : SchedulerRoutes) : RoutesOp → SchedulerRoutes
  | RoutesOp.setLatest r => s.setLatestRoute r
  | RoutesOp.bind j => s.bindJob j
  | RoutesOp.remove j => s.removeJob j

/-- Applies a sequence of SchedulerRoutes method calls in order. -/
def applyRoutesOps (ops : List RoutesOp) (s : SchedulerRoutes) : SchedulerRoutes :=
  ops.foldl applyRoutesOp s

/-- A job with no binding stays unbound across any call sequence that never
binds it. -/
theorem routesByJobId_none_of_no_bind (J : String) :
    ∀ (ops : List RoutesOp) (s : SchedulerRoutes), s.routesByJobId J = none →
      (∀ op ∈ ops, op ≠ RoutesOp.bind J) → (applyRoutesOps ops s).routesByJobId J = none := by
  intro ops
  induction ops with
  | nil => intro s h _; exact h
  | cons op rest ih =>
      intro s h hops
      have hrest : ∀ o ∈ rest, o ≠ RoutesOp.bind J := fun o ho =>
        hops o (List.mem_cons_of_mem _ ho)
      have hstep : (applyRoutesOp s op).routesByJobId J = none := by
        cases op with
        | setLatest r => simpa [applyRoutesOp, SchedulerRoutes.setLatestRoute] using h
        | bind j =>
            have hne : J ≠ j := by
              intro hEq
              exact hops (RoutesOp.bind j) (List.mem_cons_self _ _) (by rw [hEq])
            cases hlat : s.latestRoute with
            | none => simpa [applyRoutesOp, SchedulerRoutes.bindJob, hlat] using h
            | some r => simp [applyRoutesOp, SchedulerRoutes.bindJob, hlat, hne, h]
        | remove j =>
            by_cases hj : J = j
            · simp [applyRoutesOp, SchedulerRoutes.removeJob, hj]
            · simp [applyRoutesOp, SchedulerRoutes.removeJob, hj, h]
      have := ih (applyRoutesOp s op) hstep hrest
      simpa [applyRoutesOps, List.foldl_cons] using this

/-- C3: a binding captured by bindJob at bind time is returned by resolve even
after later setLatestRoute calls; a job never bound resolves to the latest
route (or nothing when none was ever set); after removeJob the job falls back
to the latest route. -/
theorem schedulerRoutes_binding_semantics :
    (∀ (s : SchedulerRoutes) (R1 R2 : SchedulerRoute) (J : String),
        ((((s.setLatestRoute R1).bindJob J).setLatestRoute R2).resolve J) = some R1)
    ∧ (∀ (J : String) (ops : List RoutesOp), (∀ op ∈ ops, op ≠ RoutesOp.bind J) →
        (applyRoutesOps ops emptyRoutes).resolve J = (applyRoutesOps ops emptyRoutes).latestRoute)
    ∧ (∀ (s : SchedulerRoutes) (J : String),
        (s.removeJob J).resolve J = (s.removeJob J).latestRoute) := by
  refine ⟨?_, ?_, ?_⟩
  · intro s R1 R2 J
    simp [SchedulerRoutes.setLatestRoute, SchedulerRoutes.bindJob, SchedulerRoutes.resolve]
  · intro J ops hops
    have hnone : (applyRoutesOps ops emptyRoutes).routesByJobId J = none :=
      routesByJobId_none_of_no_bind J ops emptyRoutes rfl hops
    simp [SchedulerRoutes.resolve, hnone]
  · intro s J
    simp [SchedulerRoutes.removeJob, SchedulerRoutes.resolve]

/-- Concrete route used by witness instantiations. -/
def routeW : SchedulerRoute := ⟨"chan", none, RouteMode.dm⟩

/-- Witness for C3: instantiates the unbound-job clause on the one-call
sequence that only sets a latest route. -/
theorem schedulerRoutes_binding_semantics_witness :
    (applyRoutesOps [RoutesOp.setLatest routeW] emptyRoutes).resolve "job"
      = (applyRoutesOps [RoutesOp.setLatest routeW] emptyRoutes).latestRoute :=
  schedulerRoutes_binding_semantics.2.1 "job" [RoutesOp.setLatest routeW] (by decide)

/-! ChannelQueue: the per-channel sequential work queue of queue.ts. Work
items are modelled with an id and a throws flag; enqueue appends and starts
the item immediately when the queue is idle, and settling the in-flight item
(whether it resolved or threw, the catch swallows the error) records its
completion and starts the next pending item, exactly as processNext does. -/

/-- One unit of asynchronous work handed to ChannelQueue.enqueue. The throws
flag records whether the work item rejects; the queue catches either way. -/
structure WorkItem where
  id : Nat
  throws : Bool
deriving DecidableEq, Repr

/-- Observable execution events of the queue: an item starting and an item
completing (normally or by a caught error). -/
inductive QEvent
  | start (id : Nat)
  | finish (id : Nat)
deriving DecidableEq, Repr

/-- State of one ChannelQueue: the pending items, the in-flight item (the
processing flag of the source, carrying which item is running), and the
trace of start and finish events so far. -/
structure QState where
  pending : List WorkItem
  processing : Option WorkItem
  trace : List QEvent
deriving Repr

/-- processNext: when idle and work is pending, shift the first item and
start it; otherwise do nothing. -/
def processNext (s : QState) : QState :=
  match s.processing, s.pending with
  | none, w :: rest =>
      { pending := rest, processing := some w, trace := s.trace ++ [QEvent.start w.id] }
  | _, _ => s

/-- enqueue(work): append the item and invoke processNext. -/
def enqueueItem (s : QState) (w : WorkItem) : QState :=
  processNext { s with pending := s.pending ++ [w] }

/-- Settling of the in-flight item: the awaited work resolves or rejects (the
catch swallows a rejection), the finally block clears the processing flag and
processNext starts the next pending item. -/
def settleCurrent (s : QState) : QState :=
  match s.processing with
  | some w =>
      processNext { pending := s.pending, processing := none, trace := s.trace ++ [QEvent.finish w.id] }
  | none => s

/-- External interactions with one ChannelQueue: enqueueing a work item, and
the in-flight work item settling. -/
inductive QAct
  | enq (w : WorkItem)
  | settle
deriving DecidableEq

/-- Applies one queue interaction. -/
def stepQ (s : QState) : QAct → QState
  | QAct.enq w => enqueueItem s w
  | QAct.settle => settleCurrent s

/-- Freshly constructed ChannelQueue. -/
def initQ : QState := ⟨[], none, []⟩

/-- Runs a sequence of queue interactions from the initial state. -/
def runQ (acts : List QAct) : QState := acts.foldl stepQ initQ

/-- Work items enqueued by an interaction sequence, in order. -/
def enqueuedOf (acts : List QAct) : List WorkItem :=
  acts.filterMap (fun a => match a with | QAct.enq w => some w | QAct.settle => none)

/-- Well-nested trace fragment of one fully executed work item. -/
def pairTrace (w : WorkItem) : List QEvent := [QEvent.start w.id, QEvent.finish w.id]

/-- Invariant tying a queue state to the interactions that produced it: the
enqueued items split into completed ones, the optional in-flight one and the
pending ones, in order, and the trace is the perfectly nested sequence of the
completed items followed by the start of the in-flight one; an idle queue has
nothing pending. -/
def QInv (acts : List QAct) (s : QState) : Prop :=
  ∃ done : List WorkItem,
    enqueuedOf acts = done ++ s.processing.toList ++ s.pending ∧
    s.trace = (done.map pairTrace).flatten
      ++ (s.processing.toList.map (fun w => QEvent.start w.id)) ∧
    (s.processing = none → s.pending = [])

/-- One queue interaction preserves the queue invariant. -/
theorem qinv_step (acts : List QAct) (s : QState) (a : QAct)
    (h : QInv acts s) : QInv (acts ++ [a]) (stepQ s a) := by
  obtain ⟨done, hsplit, htrace, hidle⟩ := h
  cases a with
  | enq w =>
      cases hp : s.processing with
      | some u =>
          refine ⟨done, ?_, ?_, ?_⟩
          · simp [enqueuedOf, stepQ, enqueueItem, processNext, hp] at hsplit ⊢
            simp [hsplit, List.filterMap_append]
          · simp [stepQ, enqueueItem, processNext, hp] at htrace ⊢
            simpa using htrace
          · simp [stepQ, enqueueItem, processNext, hp]
      | none =>
          have hpe : s.pending = [] := hidle hp
          refine ⟨done, ?_, ?_, ?_⟩
          · simp [enqueuedOf, stepQ, enqueueItem, processNext, hp, hpe,
              List.filterMap_append] at hsplit ⊢
            simpa using hsplit
          · simp [stepQ, enqueueItem, processNext, hp, hpe] at htrace ⊢
            simpa using htrace
          · simp [stepQ, enqueueItem, processNext, hp, hpe]
  | settle =>
      cases hp : s.processing with
      | none =>
          refine ⟨done, ?_, ?_, ?_⟩
          · simpa [enqueuedOf, stepQ, settleCurrent, hp, List.filterMap_append] using hsplit
          · simpa [stepQ, settleCurrent, hp] using htrace
          · simpa [stepQ, settleCurrent, hp] using hidle
      | some u =>
          cases hpe : s.pending with
          | nil =>
              refine ⟨done ++ [u], ?_, ?_, ?_⟩
              · simp [enqueuedOf, stepQ, settleCurrent, processNext, hp, hpe,
                  List.filterMap_append] at hsplit ⊢
                simpa [hpe] using hsplit
              · simp [stepQ, settleCurrent, processNext, hp, hpe] at htrace ⊢
                simp [htrace, pairTrace]
              · simp [stepQ, settleCurrent, processNext, hp, hpe]
          | cons v rest =>
              refine ⟨done ++ [u], ?_, ?_, ?_⟩
              · simp [enqueuedOf, stepQ, settleCurrent, processNext, hp, hpe,
                  List.filterMap_append] at hsplit ⊢
                simpa [hpe] using hsplit
              · simp [stepQ, settleCurrent, processNext, hp, hpe] at htrace ⊢
                simp [htrace, pairTrace]
              · simp [stepQ, settleCurrent, processNext, hp, hpe]

/-- The queue invariant holds along any interaction sequence. -/
theorem qinv_fold :
    ∀ (acts2 acts1 : List QAct) (s : QState), QInv acts1 s →
      QInv (acts1 ++ acts2) (acts2.foldl stepQ s) := by
  intro acts2
  induction acts2 with
  | nil => intro acts1 s h; simpa using h
  | cons a rest ih =>
      intro acts1 s h
      have h1 : QInv (acts1 ++ [a]) (stepQ s a) := qinv_step acts1 s a h
      have h2 := ih (acts1 ++ [a]) (stepQ s a) h1
      simpa [List.append_assoc] using h2

/-- C2: along every interaction sequence with a ChannelQueue, the completed
items form a prefix of the enqueue order, the event trace is exactly that
prefix's start/finish pairs in enqueue order followed by at most one
unmatched start (so at most one item is ever executing and items start and
complete in enqueue order), and an idle queue has nothing pending (a thrown
item — any throws flag — is caught and never blocks later items). -/
theorem channelQueue_sequential_execution (acts : List QAct) :
    ∃ done : List WorkItem,
      enqueuedOf acts = done ++ (runQ acts).processing.toList ++ (runQ acts).pending ∧
      (runQ acts).trace = (done.map pairTrace).flatten
        ++ ((runQ acts).processing.toList.map (fun w => QEvent.start w.id)) ∧
      ((runQ acts).processing = none → (runQ acts).pending = []) := by
  have h0 : QInv [] initQ := ⟨[], by simp [enqueuedOf, initQ], by simp [initQ], by simp [initQ]⟩
  have h := qinv_fold acts [] initQ h0
  simpa [runQ, QInv] using h

/-- Witness for C2: a throwing item followed by a later item; after both
settle, the trace is the fully ordered, non-overlapping execution of both. -/
theorem channelQueue_sequential_execution_witness :
    ∃ done : List WorkItem,
      enqueuedOf [QAct.enq ⟨0, true⟩, QAct.settle, QAct.enq ⟨1, false⟩, QAct.settle]
          = done
            ++ (runQ [QAct.enq ⟨0, true⟩, QAct.settle, QAct.enq ⟨1, false⟩, QAct.settle]).processing.toList
            ++ (runQ [QAct.enq ⟨0, true⟩, QAct.settle, QAct.enq ⟨1, false⟩, QAct.settle]).pending ∧
      (runQ [QAct.enq ⟨0, true⟩, QAct.settle, QAct.enq ⟨1, false⟩, QAct.settle]).trace
          = (done.map pairTrace).flatten
            ++ ((runQ [QAct.enq ⟨0, true⟩, QAct.settle, QAct.enq ⟨1, false⟩, QAct.settle]).processing.toList.map
                (fun w => QEvent.start w.id)) ∧
      ((runQ [QAct.enq ⟨0, true⟩, QAct.settle, QAct.enq ⟨1, false⟩, QAct.settle]).processing = none →
        (runQ [QAct.enq ⟨0, true⟩, QAct.settle, QAct.enq ⟨1, false⟩, QAct.settle]).pending = []) :=
  channelQueue_sequential_execution [QAct.enq ⟨0, true⟩, QAct.settle, QAct.enq ⟨1, false⟩, QAct.settle]

/-! Heuristic text inference of upload-tool.ts: the explicit file-name
tokenizer and the send-latest / send-all phrase detectors, modelling the
JavaScript regular expressions at character level (greedy matching with
backtracking, and ASCII word boundaries). -/

/-- Length of the maximal leading run of characters satisfying p. -/
def takeRunLen (p : Char → Bool) : List Char → Nat
  | [] => 0
  | c :: rest => if p c then takeRunLen p rest + 1 else 0

/-- Character class of the file-name token head: any character other than
whitespace, double quote, single quote, backtick and angle brackets. -/
def fileTokenChar (c : Char) : Bool :=
  !(jsWhitespaceChar c || c == '"' || c == '\'' || c == '`' || c == '<' || c == '>')

/-- Character class of the file-name extension: letters, digits, underscore
and hyphen. -/
def extTokenChar (c : Char) : Bool := c.isAlphanum || c == '_' || c == '-'

/-- Backtracking search for the dot position of a file-name token: the
largest k with 1 <= k such that the character at index k is a dot followed by
at least one extension character. -/
def findDotK (cs : List Char) : Nat → Option Nat
  | 0 => none
  | Nat.succ km1 =>
      if charAt? cs (km1 + 1) == some '.'
          && (match charAt? cs (km1 + 2) with | some c => extTokenChar c | none => false) then
        some (km1 + 1)
      else findDotK cs km1

/-- Greedy match of one file-name token at the head of cs, returning the
matched characters and the remainder after the match. -/
def fileTokenAt (cs : List Char) : Option (List Char × List Char) :=
  let r := takeRunLen fileTokenChar cs
  if r == 0 then none
  else
    match findDotK cs r with
    | none => none
    | some k =>
        let e := takeRunLen extTokenChar (cs.drop (k + 1))
        some (cs.take (k + 1 + e), cs.drop (k + 1 + e))

/-- Scans cs left to right collecting successive leftmost file-name token
matches, as a global regular-expression match does; the fuel argument bounds
the recursion and one character or one whole match is consumed per step, so
fuel equal to the length of cs is always sufficient. -/
def fileTokensAux : Nat → List Char → List (List Char)
  | 0, _ => []
  | _ + 1, [] => []
  | fuel + 1, c :: rest =>
      match fileTokenAt (c :: rest) with
      | some (m, restAfter) => m :: fileTokensAux fuel restAfter
      | none => fileTokensAux fuel rest

/-- All file-name token matches of the user message. -/
def jsFileTokenMatches (s : String) : List String :=
  (fileTokensAux s.data.length s.data).map String.mk

/-- Leading punctuation stripped from a matched token. -/
def leadStripChar (c : Char) : Bool :=
  c == '(' || c == '[' || c == '{' || c == '"' || c == '\'' || c == '`'

/-- Trailing punctuation stripped from a matched token. -/
def trailStripChar (c : Char) : Bool :=
  c == ')' || c == ']' || c == '}' || c == '"' || c == '\'' || c == '`'
    || c == ',' || c == '.' || c == ';' || c == ':' || c == '!' || c == '?'

/-- Strips the leading and trailing punctuation runs from a token. -/
def stripEdgePunct (s : String) : String :=
  let cs := s.data.dropWhile leadStripChar
  String.mk ((cs.reverse.dropWhile trailStripChar).reverse)

/-- String.prototype.trim restricted to ASCII whitespace. -/
def trimJs (s : String) : String :=
  let cs := s.data.dropWhile jsWhitespaceChar
  String.mk ((cs.reverse.dropWhile jsWhitespaceChar).reverse)

/-- Removes duplicates keeping each first occurrence, as iterating a
JavaScript Set built by insertion does. -/
def dedupKeepFirst (l : List String) : List String :=
  l.foldl (fun acc x => if x ∈ acc then acc else acc ++ [x]) []

/-- inferRequestedFileNames: explicit file names mentioned in the user
message, as base names, deduplicated in order of first occurrence. -/
def inferRequestedFileNames (userMessage : String) : List String :=
  let ms := jsFileTokenMatches userMessage
  let normalized :=
    ((ms.map (fun v => stripEdgePunct (trimJs v))).filter (fun v => v ≠ "")).map jsBasename
  dedupKeepFirst normalized

/-- Word boundary before index i: start of string or a preceding non-word
character (all searched words start with a word character). -/
def preBoundary (cs : List Char) (i : Nat) : Bool :=
  match i with
  | 0 => true
  | Nat.succ j =>
      match charAt? cs j with
      | some c => !isWordChar c
      | none => true

/-- Word boundary at index i: end of string or a non-word character there
(all searched words end with a word character). -/
def postBoundary (cs : List Char) (i : Nat) : Bool :=
  match charAt? cs i with
  | some c => !isWordChar c
  | none => true

/-- Occurrence of the word w as a whole word somewhere in cs. -/
def hasWordToken (cs : List Char) (w : String) : Bool :=
  (List.range (cs.length + 1)).any fun i =>
    preBoundary cs i && occursAt cs i w.data && postBoundary cs (i + w.data.length)

/-- Upload-intent verbs searched by the heuristics. -/
def uploadIntentVerbs : List String := ["attach", "upload", "send", "share"]

/-- hasUploadIntent: a case-insensitive whole-word occurrence of an
upload-intent verb. -/
def hasUploadIntent (userMessage : String) : Bool :=
  uploadIntentVerbs.any fun v => hasWordToken (strLower userMessage).data v

/-- Run of exactly k whitespace characters starting at index j. -/
def wsRunAt (cs : List Char) (j k : Nat) : Bool :=
  decide (j + k ≤ cs.length) && ((cs.drop j).take k).all jsWhitespaceChar

/-- Matches a word from heads, one or more whitespace characters, then a word
from tails ending at a word boundary, with a word boundary before the head
word — the shape of the two verb-then-pronoun regular expressions. -/
def verbThenWordToken (cs : List Char) (heads tails : List String) : Bool :=
  (List.range (cs.length + 1)).any fun i =>
    heads.any fun v =>
      preBoundary cs i && occursAt cs i v.data &&
      ((List.range (cs.length + 1)).any fun k =>
        decide (1 ≤ k) && wsRunAt cs (i + v.data.length) k &&
        tails.any fun w =>
          occursAt cs (i + v.data.length + k) w.data &&
          postBoundary cs (i + v.data.length + k + w.data.length))

/-- Character class of the gap in the verb-gap-noun regular expression:
whitespace or word characters. -/
def gapChar (c : Char) : Bool := jsWhitespaceChar c || isWordChar c

/-- Run of exactly k gap characters starting at index j. -/
def gapRunAt (cs : List Char) (j k : Nat) : Bool :=
  decide (j + k ≤ cs.length) && ((cs.drop j).take k).all gapChar

/-- Matches an upload verb bounded on both sides, a run of whitespace or word
characters, then file or attachment ending at a word boundary. -/
def verbGapWordToken (cs : List Char) : Bool :=
  (List.range (cs.length + 1)).any fun i =>
    uploadIntentVerbs.any fun v =>
      preBoundary cs i && occursAt cs i v.data && postBoundary cs (i + v.data.length) &&
      ((List.range (cs.length + 1)).any fun k =>
        gapRunAt cs (i + v.data.length) k &&
        ["file", "attachment"].any fun w =>
          occursAt cs (i + v.data.length + k) w.data &&
          postBoundary cs (i + v.data.length + k + w.data.length))

/-- shouldAutoSelectLatestUpload: upload intent, no explicit file names, and
a send-this-or-that phrasing. -/
def shouldAutoSelectLatestUpload (userMessage : String) : Bool :=
  if !hasUploadIntent userMessage then false
  else if (inferRequestedFileNames userMessage).length > 0 then false
  else
    let lower := (strLower userMessage).data
    if verbThenWordToken lower uploadIntentVerbs ["this", "that", "it"] then true
    else if verbThenWordToken lower ["this", "that", "the"] ["file"] then true
    else if verbGapWordToken lower then true
    else false

/-- shouldAutoSelectAllUploads: upload intent, no explicit file names, and a
plural or both phrasing. -/
def shouldAutoSelectAllUploads (userMessage : String) : Bool :=
  if !hasUploadIntent userMessage then false
  else if (inferRequestedFileNames userMessage).length > 0 then false
  else
    let lower := (strLower userMessage).data
    if hasWordToken lower "files" || hasWordToken lower "attachments" then true
    else if hasWordToken lower "both" then true
    else false

/-! Upload-selection policy of upload-tool.ts: candidate validation against
the workspace, explicit-name filtering, and the auto-select-all and
auto-select-latest branches. -/

/-- Replaces every occurrence of one character, as replaceAll on a
one-character pattern. -/
def replaceChar (s : String) (a b : Char) : String :=
  String.mk (s.data.map fun c => if c == a then b else c)

/-- Workspace-relative subpaths upload candidates may never come from. -/
def BLOCKED_UPLOAD_PREFIXES : List String := [".papert/tools", ".papert/.papert-claw-runtime"]

/-- isAttachmentCandidate: the candidate lies under the attachments
subdirectory of the workspace. -/
def isAttachmentCandidate (absPath workspaceRoot : String) : Bool :=
  strStarts (replaceChar (jsRelativeAbs workspaceRoot absPath) '\\' '/') "attachments/"

/-- getAutoSelectionPriority: attachments files rank 3, the session-state
file ranks 1, anything else ranks 2. -/
def getAutoSelectionPriority (absPath workspaceRoot : String) : Nat :=
  let rel := replaceChar (jsRelativeAbs workspaceRoot absPath) '\\' '/'
  if strStarts rel "attachments/" then 3
  else if strLower (jsBasename absPath) = "session.json" then 1
  else 2

/-- isUploadPathBlocked: the candidate is the workspace root itself, escapes
it, or lies under a reserved internal-tooling subpath. -/
def isUploadPathBlocked (absPath workspaceDir : String) : Bool :=
  let rel := jsRelativeAbs workspaceDir absPath
  if rel = "" || rel = "." || strStarts rel ".." then true
  else
    let posixRel := replaceChar rel '\\' '/'
    BLOCKED_UPLOAD_PREFIXES.any fun pre => posixRel = pre || strStarts posixRel (pre ++ "/")

/-- One iteration of the candidate loop of enforceUploadPolicy: the state is
the accepted set (insertion ordered) and the auto-selection candidate list. -/
def uploadPolicyStep (env : SysEnv) (workspaceRoot : String) (requested : List String)
    (autoSelectLatest autoSelectAll : Bool)
    (st : List String × List String) (candidate : String) : List String × List String :=
  let abs := jsResolve1 env.cwd candidate
  if !(strStarts abs (workspaceRoot ++ "/") || abs == workspaceRoot) then st
  else if !env.fileExists abs then st
  else if isUploadPathBlocked abs workspaceRoot then st
  else if requested.isEmpty then
    if autoSelectLatest || autoSelectAll then (st.1, st.2 ++ [abs]) else st
  else
    let lowerPath := strLower abs
    let lowerBase := jsBasename lowerPath
    if decide (lowerBase ∈ requested) || requested.any (fun name => strEnds lowerPath name) then
      (if abs ∈ st.1 then st.1 else st.1 ++ [abs], st.2)
    else st

/-- Option-valued natural order with none as negative infinity, for the
initial selection priority of the auto-select-latest scan. -/
def optNatLtB : Option Nat → Option Nat → Bool
  | none, some _ => true
  | some a, some b => decide (a < b)
  | _, none => false

/-- Option-valued integer order with none as negative infinity, for
modification times where a stat call threw. -/
def optIntLtB : Option Int → Option Int → Bool
  | none, some _ => true
  | some a, some b => decide (a < b)
  | _, none => false

/-- One iteration of the auto-select-latest scan: the state is the currently
selected path, its modification time and its priority. -/
def latestSelectionStep (env : SysEnv) (workspaceRoot : String)
    (st : String × Option Int × Option Nat) (path : String) : String × Option Int × Option Nat :=
  let mtime := env.mtimeMs path
  let priority : Option Nat := some (getAutoSelectionPriority path workspaceRoot)
  if optNatLtB st.2.2 priority
      || (priority == st.2.2
          && (optIntLtB st.2.1 mtime || (mtime == st.2.1 && jsStrLt st.1 path))) then
    (path, mtime, priority)
  else st

/-- enforceUploadPolicy: validates candidates against the workspace, keeps
explicitly requested names when the user named files, and otherwise applies
the auto-select-all or auto-select-latest branch (logging is omitted). -/
def enforceUploadPolicy (env : SysEnv) (uploadPaths : List String)
    (userMessage workspaceDir : String) : List String :=
  let workspaceRoot := jsResolve1 env.cwd workspaceDir
  let requested := (inferRequestedFileNames userMessage).map strLower
  let autoSelectLatest := requested.isEmpty && shouldAutoSelectLatestUpload userMessage
  let autoSelectAll := requested.isEmpty && shouldAutoSelectAllUploads userMessage
  let st := uploadPaths.foldl
    (uploadPolicyStep env workspaceRoot requested autoSelectLatest autoSelectAll) ([], [])
  let accepted := st.1
  let autoCandidates := st.2
  let accepted :=
    if autoSelectAll && !autoCandidates.isEmpty then
      let attachmentCandidates :=
        autoCandidates.filter (fun p => isAttachmentCandidate p workspaceRoot)
      let chosen :=
        if !attachmentCandidates.isEmpty then attachmentCandidates
        else autoCandidates.filter (fun p => strLower (jsBasename p) != "session.json")
      let selected := if !chosen.isEmpty then chosen else autoCandidates
      selected.foldl (fun acc p => if p ∈ acc then acc else acc ++ [p]) accepted
    else accepted
  let accepted :=
    if !autoSelectAll && autoSelectLatest && !autoCandidates.isEmpty then
      let sel := autoCandidates.foldl (latestSelectionStep env workspaceRoot)
        (autoCandidates.headD "", none, none)
      if sel.1 ∈ accepted then accepted else accepted ++ [sel.1]
    else accepted
  accepted

/-- Validity of a resolved candidate: inside the workspace (by the policy's
own prefix-or-equal test), existing, and not under a blocked subpath. -/
def uploadCandidateValid (env : SysEnv) (workspaceRoot abs : String) : Bool :=
  (strStarts abs (workspaceRoot ++ "/") || abs == workspaceRoot)
    && env.fileExists abs
    && !isUploadPathBlocked abs workspaceRoot

/-- Explicit-name acceptance test of the policy: the lower-cased base name is
among the requested names, or the lower-cased path ends with one of them. -/
def uploadNameMatch (requested : List String) (abs : String) : Bool :=
  decide (jsBasename (strLower abs) ∈ requested)
    || requested.any (fun name => strEnds (strLower abs) name)

/-- Resolved candidates surviving the validity checks, in candidate order. -/
def validResolvedCandidates (env : SysEnv) (uploadPaths : List String)
    (workspaceDir : String) : List String :=
  (uploadPaths.map (jsResolve1 env.cwd)).filter
    (fun abs => uploadCandidateValid env (jsResolve1 env.cwd workspaceDir) abs)

/-- When the user named files explicitly, one candidate-loop iteration either
inserts the resolved candidate (when valid and name-matching) or leaves the
state unchanged, and never touches the auto-selection list. -/
theorem uploadPolicyStep_req (env : SysEnv) (root : String) (requested : List String)
    (al aa : Bool) (st : List String × List String) (c : String)
    (hreq : requested.isEmpty = false) :
    uploadPolicyStep env root requested al aa st c =
      (if uploadCandidateValid env root (jsResolve1 env.cwd c)
          && uploadNameMatch requested (jsResolve1 env.cwd c) then
        (if jsResolve1 env.cwd c ∈ st.1 then st.1 else st.1 ++ [jsResolve1 env.cwd c], st.2)
      else st) := by
  unfold uploadPolicyStep uploadCandidateValid uploadNameMatch
  cases h1 : strStarts (jsResolve1 env.cwd c) (root ++ "/") || jsResolve1 env.cwd c == root <;>
    cases h2 : env.fileExists (jsResolve1 env.cwd c) <;>
      cases h3 : isUploadPathBlocked (jsResolve1 env.cwd c) root <;>
        simp [h1, h2, h3, hreq]

/-- Membership in a deduplicating insertion fold. -/
theorem mem_insertFold (l : List String) :
    ∀ (acc : List String) (x : String),
      x ∈ l.foldl (fun a p => if p ∈ a then a else a ++ [p]) acc ↔ x ∈ acc ∨ x ∈ l := by
  induction l with
  | nil => intro acc x; simp
  | cons p t ih =>
      intro acc x
      by_cases hp : p ∈ acc
      · rw [List.foldl_cons, if_pos hp, ih]
        simp only [List.mem_cons]
        constructor
        · tauto
        · rintro (h | rfl | h) <;> tauto
      · rw [List.foldl_cons, if_neg hp, ih]
        simp only [List.mem_append, List.mem_cons, List.not_mem_nil, or_false]
        tauto

/-- Membership in a filtered deduplicating insertion fold over transformed
candidates. -/
theorem mem_filterInsertFold (f : String → String) (P : String → Bool) (l : List String) :
    ∀ (acc : List String) (x : String),
      x ∈ l.foldl (fun a c => if P (f c) then (if f c ∈ a then a else a ++ [f c]) else a) acc
        ↔ x ∈ acc ∨ ∃ c ∈ l, f c = x ∧ P x = true := by
  induction l with
  | nil => intro acc x; simp
  | cons c t ih =>
      intro acc x
      rw [List.foldl_cons]
      by_cases hP : P (f c) = true
      · by_cases hm : f c ∈ acc
        · rw [if_pos hP, if_pos hm, ih]
          constructor
          · rintro (h | ⟨d, hd, he, hp⟩)
            · exact Or.inl h
            · exact Or.inr ⟨d, List.mem_cons_of_mem _ hd, he, hp⟩
          · rintro (h | ⟨d, hd, he, hp⟩)
            · exact Or.inl h
            · rcases List.mem_cons.mp hd with rfl | hd'
              · exact Or.inl (he ▸ hm)
              · exact Or.inr ⟨d, hd', he, hp⟩
        · rw [if_pos hP, if_neg hm, ih]
          constructor
          · rintro (h | ⟨d, hd, he, hp⟩)
            · rcases List.mem_append.mp h with h' | h'
              · exact Or.inl h'
              · have hx : x = f c := List.mem_singleton.mp h'
                exact Or.inr ⟨c, List.mem_cons_self _ _, hx.symm, by rw [hx]; exact hP⟩
            · exact Or.inr ⟨d, List.mem_cons_of_mem _ hd, he, hp⟩
          · rintro (h | ⟨d, hd, he, hp⟩)
            · exact Or.inl (List.mem_append.mpr (Or.inl h))
            · rcases List.mem_cons.mp hd with rfl | hd'
              · exact Or.inl (List.mem_append.mpr (Or.inr (by simp [he])))
              · exact Or.inr ⟨d, hd', he, hp⟩
      · have hP' : P (f c) = false := by
          cases h : P (f c)
          · rfl
          · exact absurd h hP
        rw [hP']
        simp only [Bool.false_eq_true, if_false]
        rw [ih]
        constructor
        · rintro (h | ⟨d, hd, he, hp⟩)
          · exact Or.inl h
          · exact Or.inr ⟨d, List.mem_cons_of_mem _ hd, he, hp⟩
        · rintro (h | ⟨d, hd, he, hp⟩)
          · exact Or.inl h
          · rcases List.mem_cons.mp hd with rfl | hd'
            · exact absurd (show P (f d) = true by rw [he]; exact hp) (by simp [hP'])
            · exact Or.inr ⟨d, hd', he, hp⟩

/-- With explicit requested names, the candidate loop reduces to a filtered
insertion fold on the accepted set and never collects auto candidates. -/
theorem foldl_uploadPolicyStep_req (env : SysEnv) (root : String) (requested : List String)
    (al aa : Bool) (hreq : requested.isEmpty = false) (ps : List String) :
    ∀ st : List String × List String,
      ps.foldl (uploadPolicyStep env root requested al aa) st
        = (ps.foldl (fun a c =>
            if uploadCandidateValid env root (jsResolve1 env.cwd c)
                && uploadNameMatch requested (jsResolve1 env.cwd c) then
              (if jsResolve1 env.cwd c ∈ a then a else a ++ [jsResolve1 env.cwd c])
            else a) st.1,
          st.2) := by
  induction ps with
  | nil => intro st; rfl
  | cons c t ih =>
      intro st
      rw [List.foldl_cons, uploadPolicyStep_req env root requested al aa st c hreq,
        List.foldl_cons]
      by_cases h :
          (uploadCandidateValid env root (jsResolve1 env.cwd c)
            && uploadNameMatch requested (jsResolve1 env.cwd c)) = true
      · simp only [if_pos h]
        exact ih _
      · have h' := Bool.not_eq_true _ |>.mp h
        simp only [h', Bool.false_eq_true, if_false]
        exact ih st

/-- C4 (amended): when the user text names explicit file names, the policy
accepts exactly the valid candidates (inside the workspace, existing, not
blocked) whose lower-cased base name matches one of the named files or whose
lower-cased full path ends with one of them — the path-suffix disjunct being
the amendment forced by the source. -/
theorem uploadPolicy_explicit_names (env : SysEnv) (ps : List String) (msg ws : String)
    (hreq : inferRequestedFileNames msg ≠ []) (x : String) :
    x ∈ enforceUploadPolicy env ps msg ws ↔
      ∃ c ∈ ps, jsResolve1 env.cwd c = x
        ∧ (uploadCandidateValid env (jsResolve1 env.cwd ws) x
            && uploadNameMatch ((inferRequestedFileNames msg).map strLower) x) = true := by
  have hne : ((inferRequestedFileNames msg).map strLower).isEmpty = false := by
    cases h : inferRequestedFileNames msg with
    | nil => exact absurd h hreq
    | cons a t => simp [h]
  have hpol : enforceUploadPolicy env ps msg ws
      = ps.foldl (fun a c =>
          if uploadCandidateValid env (jsResolve1 env.cwd ws) (jsResolve1 env.cwd c)
              && uploadNameMatch ((inferRequestedFileNames msg).map strLower)
                (jsResolve1 env.cwd c) then
            (if jsResolve1 env.cwd c ∈ a then a else a ++ [jsResolve1 env.cwd c])
          else a) [] := by
    unfold enforceUploadPolicy
    simp only [hne, Bool.false_and, Bool.and_false, Bool.not_false, Bool.true_and,
      Bool.false_eq_true, if_false]
    rw [foldl_uploadPolicyStep_req env (jsResolve1 env.cwd ws)
      ((inferRequestedFileNames msg).map strLower) false false hne ps ([], [])]
  rw [hpol, mem_filterInsertFold (jsResolve1 env.cwd)
    (fun abs => uploadCandidateValid env (jsResolve1 env.cwd ws) abs
      && uploadNameMatch ((inferRequestedFileNames msg).map strLower) abs) ps [] x]
  simp

/-- System state for the C4 counterexample: only ab.csv exists. -/
def envC4x : SysEnv := ⟨"/", fun p => p == "/ws/ab.csv", fun _ => none⟩

/-- C4 counterexample: for user text naming b.csv, the candidate ab.csv —
whose base name matches none of the named files — is accepted because its
path merely ends with b.csv, refuting the claim that acceptance requires a
base-name match. -/
theorem uploadPolicy_explicit_names_counterexample :
    enforceUploadPolicy envC4x ["/ws/ab.csv"] "attach b.csv" "/ws" = ["/ws/ab.csv"]
      ∧ inferRequestedFileNames "attach b.csv" = ["b.csv"]
      ∧ jsBasename (strLower "/ws/ab.csv") = "ab.csv"
      ∧ ("ab.csv" ∈ ["b.csv"].map strLower → False) := by
  refine ⟨by decide, by decide, by decide, by decide⟩

/-- System state for the C4 witness: a.pdf and b.csv exist. -/
def envC4w : SysEnv := ⟨"/", fun p => p == "/ws/a.pdf" || p == "/ws/b.csv", fun _ => none⟩

/-- Witness for C4: with candidates a.pdf and b.csv and user text naming
b.csv, only b.csv is accepted. -/
theorem uploadPolicy_explicit_names_witness :
    "/ws/b.csv" ∈ enforceUploadPolicy envC4w ["/ws/a.pdf", "/ws/b.csv"] "attach b.csv" "/ws"
      ∧ ("/ws/a.pdf" ∈ enforceUploadPolicy envC4w ["/ws/a.pdf", "/ws/b.csv"] "attach b.csv" "/ws"
          → False) := by
  have h := uploadPolicy_explicit_names envC4w ["/ws/a.pdf", "/ws/b.csv"] "attach b.csv" "/ws"
    (by decide)
  constructor
  · exact (h "/ws/b.csv").2 (by decide)
  · intro hmem
    exact absurd ((h "/ws/a.pdf").1 hmem) (by decide)

/-- With no explicit requested names and an auto-selection branch active, the
candidate loop accepts nothing directly and collects exactly the valid
resolved candidates, in order. -/
theorem foldl_uploadPolicyStep_auto (env : SysEnv) (root : String)
    (al aa : Bool) (hsel : (al || aa) = true) (ps : List String) :
    ∀ st : List String × List String,
      ps.foldl (uploadPolicyStep env root [] al aa) st
        = (st.1, st.2 ++ (ps.map (jsResolve1 env.cwd)).filter
            (fun abs => uploadCandidateValid env root abs)) := by
  induction ps with
  | nil => intro st; simp
  | cons c t ih =>
      intro st
      rw [List.foldl_cons]
      have hstep : uploadPolicyStep env root [] al aa st c
          = (if uploadCandidateValid env root (jsResolve1 env.cwd c) then
              (st.1, st.2 ++ [jsResolve1 env.cwd c])
            else st) := by
        unfold uploadPolicyStep uploadCandidateValid
        cases h1 : strStarts (jsResolve1 env.cwd c) (root ++ "/")
              || jsResolve1 env.cwd c == root <;>
          cases h2 : env.fileExists (jsResolve1 env.cwd c) <;>
            cases h3 : isUploadPathBlocked (jsResolve1 env.cwd c) root <;>
              simp [h1, h2, h3, hsel]
      rw [hstep]
      by_cases hv : uploadCandidateValid env root (jsResolve1 env.cwd c) = true
      · rw [if_pos hv, ih]
        simp [List.filter_cons, hv]
      · have hv' : uploadCandidateValid env root (jsResolve1 env.cwd c) = false := by
          cases h : uploadCandidateValid env root (jsResolve1 env.cwd c)
          · rfl
          · exact absurd h hv
        rw [if_neg (by simp [hv']), ih]
        simp [List.filter_cons, hv']

/-- C5 (amended): with no explicit file names and a send-everything phrasing,
the policy accepts exactly the attachments-subdirectory candidates when any
exist; otherwise every valid candidate other than the session-state file;
otherwise (only session-state candidates remain) every valid candidate — the
exclusion of valid non-attachment files whenever an attachments candidate is
present being the amendment forced by the source. -/
theorem uploadPolicy_send_all (env : SysEnv) (ps : List String) (msg ws : String)
    (h1 : inferRequestedFileNames msg = [])
    (h2 : shouldAutoSelectAllUploads msg = true) (x : String) :
    x ∈ enforceUploadPolicy env ps msg ws ↔
      (if (validResolvedCandidates env ps ws).filter
            (fun p => isAttachmentCandidate p (jsResolve1 env.cwd ws)) ≠ [] then
        x ∈ validResolvedCandidates env ps ws
          ∧ isAttachmentCandidate x (jsResolve1 env.cwd ws) = true
      else if (validResolvedCandidates env ps ws).filter
            (fun p => strLower (jsBasename p) != "session.json") ≠ [] then
        x ∈ validResolvedCandidates env ps ws ∧ strLower (jsBasename x) ≠ "session.json"
      else x ∈ validResolvedCandidates env ps ws) := by
  have hreq : (inferRequestedFileNames msg).map strLower = [] := by rw [h1]; rfl
  unfold enforceUploadPolicy
  simp only [hreq, List.isEmpty_nil, Bool.true_and, h2, Bool.not_true, Bool.false_and,
    Bool.false_eq_true, if_false]
  rw [foldl_uploadPolicyStep_auto env (jsResolve1 env.cwd ws)
    (shouldAutoSelectLatestUpload msg) true (by simp) ps ([], [])]
  simp only [List.nil_append]
  have hV : validResolvedCandidates env ps ws
      = (ps.map (jsResolve1 env.cwd)).filter
          (fun abs => uploadCandidateValid env (jsResolve1 env.cwd ws) abs) := rfl
  rw [← hV]
  by_cases hVempty : validResolvedCandidates env ps ws = []
  · rw [hVempty]
    simp
  · have hne : (validResolvedCandidates env ps ws).isEmpty = false := by
      cases hv : validResolvedCandidates env ps ws with
      | nil => exact absurd hv hVempty
      | cons a t => rfl
    by_cases hAtt : (validResolvedCandidates env ps ws).filter
        (fun p => isAttachmentCandidate p (jsResolve1 env.cwd ws)) = []
    · have hAttE : ((validResolvedCandidates env ps ws).filter
          (fun p => isAttachmentCandidate p (jsResolve1 env.cwd ws))).isEmpty = true := by
        rw [hAtt]; rfl
      by_cases hSess : (validResolvedCandidates env ps ws).filter
          (fun p => strLower (jsBasename p) != "session.json") = []
      · have hSessE : ((validResolvedCandidates env ps ws).filter
            (fun p => strLower (jsBasename p) != "session.json")).isEmpty = true := by
          rw [hSess]; rfl
        simp [hne, hAtt, hAttE, hSess, hSessE, mem_insertFold, List.mem_filter]
      · have hSessE : ((validResolvedCandidates env ps ws).filter
            (fun p => strLower (jsBasename p) != "session.json")).isEmpty = false := by
          cases hv : (validResolvedCandidates env ps ws).filter
              (fun p => strLower (jsBasename p) != "session.json") with
          | nil => exact absurd hv hSess
          | cons a t => rfl
        simp [hne, hAtt, hAttE, hSess, hSessE, mem_insertFold, List.mem_filter, bne_iff_ne]
    · have hAttE : ((validResolvedCandidates env ps ws).filter
          (fun p => isAttachmentCandidate p (jsResolve1 env.cwd ws))).isEmpty = false := by
        cases hv : (validResolvedCandidates env ps ws).filter
            (fun p => isAttachmentCandidate p (jsResolve1 env.cwd ws)) with
        | nil => exact absurd hv hAtt
        | cons a t => rfl
      simp [hne, hAtt, hAttE, mem_insertFold, List.mem_filter]

/-- System state for the C5 counterexample: an attachments file and a valid
generic file coexist. -/
def envC5x : SysEnv :=
  ⟨"/", fun p => p == "/ws/attachments/x.png" || p == "/ws/notes.txt", fun _ => none⟩

/-- C5 counterexample: for the send-everything text, a valid generic
candidate that is not the session-state file is nevertheless dropped because
an attachments candidate is present, refuting the claim that every remaining
valid candidate is accepted. -/
theorem uploadPolicy_send_all_counterexample :
    enforceUploadPolicy envC5x ["/ws/attachments/x.png", "/ws/notes.txt"] "send the files" "/ws"
        = ["/ws/attachments/x.png"]
      ∧ uploadCandidateValid envC5x "/ws" "/ws/notes.txt" = true
      ∧ strLower (jsBasename "/ws/notes.txt") ≠ "session.json"
      ∧ shouldAutoSelectAllUploads "send the files" = true := by
  refine ⟨by decide, by decide, by decide, by decide⟩

/-- System state for the C5 witness: two attachments files and the
session-state file. -/
def envC5w : SysEnv :=
  ⟨"/", fun p => p == "/ws/attachments/x.png" || p == "/ws/attachments/y.png"
      || p == "/ws/session.json", fun _ => none⟩

/-- Witness for C5: for user text send the files, both attachments files are
accepted and the session-state file is excluded. -/
theorem uploadPolicy_send_all_witness :
    "/ws/attachments/x.png" ∈ enforceUploadPolicy envC5w
        ["/ws/attachments/x.png", "/ws/attachments/y.png", "/ws/session.json"]
        "send the files" "/ws"
      ∧ "/ws/attachments/y.png" ∈ enforceUploadPolicy envC5w
          ["/ws/attachments/x.png", "/ws/attachments/y.png", "/ws/session.json"]
          "send the files" "/ws"
      ∧ ("/ws/session.json" ∈ enforceUploadPolicy envC5w
          ["/ws/attachments/x.png", "/ws/attachments/y.png", "/ws/session.json"]
          "send the files" "/ws" → False) := by
  have h := uploadPolicy_send_all envC5w
    ["/ws/attachments/x.png", "/ws/attachments/y.png", "/ws/session.json"]
    "send the files" "/ws" (by decide) (by decide)
  refine ⟨?_, ?_, ?_⟩
  · exact (h "/ws/attachments/x.png").2 (by decide)
  · exact (h "/ws/attachments/y.png").2 (by decide)
  · intro hmem
    exact absurd ((h "/ws/session.json").1 hmem) (by decide)

/-- Transitivity of the code-unit lexicographic comparison. -/
theorem charListLt_trans :
    ∀ (a b c : List Char), charListLt a b = true → charListLt b c = true →
      charListLt a c = true := by
  intro a
  induction a with
  | nil =>
      intro b c hab hbc
      cases c with
      | nil =>
          cases b with
          | nil => exact absurd hab (by simp [charListLt])
          | cons y ys => exact absurd hbc (by simp [charListLt])
      | cons z zs => simp [charListLt]
  | cons x xs ih =>
      intro b c hab hbc
      cases b with
      | nil => exact absurd hab (by simp [charListLt])
      | cons y ys =>
          cases c with
          | nil => exact absurd hbc (by simp [charListLt])
          | cons z zs =>
              simp only [charListLt] at hab hbc ⊢
              by_cases h1 : x < y
              · by_cases h2 : y < z
                · simp [lt_trans h1 h2]
                · by_cases h3 : z < y
                  · simp [h2, h3] at hbc
                  · have hyz : y = z := le_antisymm (not_lt.mp h3) (not_lt.mp h2)
                    subst hyz
                    simp [h1]
              · by_cases h1' : y < x
                · simp [h1, h1'] at hab
                · have hxy : x = y := le_antisymm (not_lt.mp h1') (not_lt.mp h1)
                  subst hxy
                  simp only [lt_irrefl, if_false] at hab hbc ⊢
                  by_cases h2 : x < z
                  · simp [h2]
                  · by_cases h3 : z < x
                    · simp [h2, h3] at hbc
                    · have hxz : x = z := le_antisymm (not_lt.mp h3) (not_lt.mp h2)
                      subst hxz
                      simp only [lt_irrefl, if_false] at hab hbc ⊢
                      exact ih ys zs hab hbc

/-- Two character lists unrelated by the lexicographic comparison in either
direction are equal. -/
theorem charListLt_asymm_eq :
    ∀ (a b : List Char), charListLt a b = false → charListLt b a = false → a = b := by
  intro a
  induction a with
  | nil =>
      intro b hab _
      cases b with
      | nil => rfl
      | cons y ys => exact absurd hab (by simp [charListLt])
  | cons x xs ih =>
      intro b hab hba
      cases b with
      | nil => exact absurd hba (by simp [charListLt])
      | cons y ys =>
          simp only [charListLt] at hab hba
          by_cases h1 : x < y
          · simp [h1] at hab
          · by_cases h2 : y < x
            · simp [h1, h2] at hba
            · have hxy : x = y := le_antisymm (not_lt.mp h2) (not_lt.mp h1)
              subst hxy
              simp only [lt_irrefl, if_false] at hab hba
              rw [ih ys hab hba]

/-- Transitivity of the string comparison. -/
theorem jsStrLt_trans (a b c : String) (hab : jsStrLt a b = true) (hbc : jsStrLt b c = true) :
    jsStrLt a c = true :=
  charListLt_trans a.data b.data c.data hab hbc

/-- Strings unrelated by the comparison in either direction are equal. -/
theorem jsStrLt_asymm_eq (a b : String) (hab : jsStrLt a b = false)
    (hba : jsStrLt b a = false) : a = b :=
  String.ext (charListLt_asymm_eq a.data b.data hab hba)

/-- Transitivity of the bottomed integer order. -/
theorem optIntLtB_trans (a b c : Option Int) (hab : optIntLtB a b = true)
    (hbc : optIntLtB b c = true) : optIntLtB a c = true := by
  cases a <;> cases b <;> cases c <;> simp [optIntLtB] at hab hbc ⊢
  exact lt_trans hab hbc

/-- Bottomed integers unrelated by the order in either direction are equal. -/
theorem optIntLtB_asymm_eq (a b : Option Int) (hab : optIntLtB a b = false)
    (hba : optIntLtB b a = false) : a = b := by
  cases a <;> cases b <;> simp [optIntLtB] at hab hba ⊢
  exact le_antisymm hba hab

/-- Selection key order of the auto-select-latest scan: higher priority tier,
then more recent modification time, then lexicographically greater path. -/
def latestKeyLt (env : SysEnv) (root : String) (a b : String) : Prop :=
  getAutoSelectionPriority a root < getAutoSelectionPriority b root
    ∨ (getAutoSelectionPriority a root = getAutoSelectionPriority b root
        ∧ (optIntLtB (env.mtimeMs a) (env.mtimeMs b) = true
            ∨ (env.mtimeMs a = env.mtimeMs b ∧ jsStrLt a b = true)))

/-- Decidability of the selection key order. -/
instance (env : SysEnv) (root : String) (a b : String) :
    Decidable (latestKeyLt env root a b) := by
  unfold latestKeyLt
  infer_instance

/-- Transitivity of the selection key order. -/
theorem latestKeyLt_trans (env : SysEnv) (root : String) (a b c : String)
    (hab : latestKeyLt env root a b) (hbc : latestKeyLt env root b c) :
    latestKeyLt env root a c := by
  rcases hab with h1 | ⟨h1, h2⟩
  · rcases hbc with g1 | ⟨g1, _⟩
    · exact Or.inl (lt_trans h1 g1)
    · exact Or.inl (g1 ▸ h1)
  · rcases hbc with g1 | ⟨g1, g2⟩
    · exact Or.inl (h1 ▸ g1)
    · refine Or.inr ⟨h1.trans g1, ?_⟩
      rcases h2 with h2 | ⟨h2, h3⟩
      · rcases g2 with g2 | ⟨g2, _⟩
        · exact Or.inl (optIntLtB_trans _ _ _ h2 g2)
        · exact Or.inl (g2 ▸ h2)
      · rcases g2 with g2 | ⟨g2, g3⟩
        · exact Or.inl (h2 ▸ g2)
        · exact Or.inr ⟨h2.trans g2, jsStrLt_trans _ _ _ h3 g3⟩

/-- Totality of the selection key order: two paths not related one way are
equal or related the other way. -/
theorem latestKeyLt_total (env : SysEnv) (root : String) (p c : String)
    (h : ¬ latestKeyLt env root p c) : c = p ∨ latestKeyLt env root c p := by
  unfold latestKeyLt at h
  push_neg at h
  obtain ⟨hprio, hrest⟩ := h
  rcases lt_or_eq_of_le hprio with hlt | heq
  · exact Or.inr (Or.inl hlt)
  · have hrest' := hrest heq.symm
    push_neg at hrest'
    obtain ⟨hmt, hstr⟩ := hrest'
    have hmtF : optIntLtB (env.mtimeMs p) (env.mtimeMs c) = false := by
      cases hx : optIntLtB (env.mtimeMs p) (env.mtimeMs c)
      · rfl
      · exact absurd hx hmt
    cases hmc : optIntLtB (env.mtimeMs c) (env.mtimeMs p) with
    | true => exact Or.inr (Or.inr ⟨heq, Or.inl hmc⟩)
    | false =>
        have hmeq : env.mtimeMs p = env.mtimeMs c := optIntLtB_asymm_eq _ _ hmtF hmc
        have hstrF : jsStrLt p c = false := by
          cases hx : jsStrLt p c
          · rfl
          · exact absurd hx (hstr hmeq)
        cases hsc : jsStrLt c p with
        | true => exact Or.inr (Or.inr ⟨heq, Or.inr ⟨hmeq.symm, hsc⟩⟩)
        | false => exact Or.inl (jsStrLt_asymm_eq c p hsc hstrF)

/-- The improvement condition of the auto-select-latest scan, at a state
carrying the true key of the selected path, holds exactly when the candidate
is greater in the selection key order. -/
theorem latestCond_iff (env : SysEnv) (root : String) (p c : String) :
    (optNatLtB (some (getAutoSelectionPriority p root)) (some (getAutoSelectionPriority c root))
        || ((some (getAutoSelectionPriority c root) == some (getAutoSelectionPriority p root))
            && (optIntLtB (env.mtimeMs p) (env.mtimeMs c)
                || (env.mtimeMs c == env.mtimeMs p && jsStrLt p c)))) = true
      ↔ latestKeyLt env root p c := by
  simp only [optNatLtB, Bool.or_eq_true, Bool.and_eq_true, beq_iff_eq, decide_eq_true_eq,
    Option.some_inj, latestKeyLt]
  constructor
  · rintro (h | ⟨he, h2 | ⟨hm, hs⟩⟩)
    · exact Or.inl h
    · exact Or.inr ⟨he.symm, Or.inl h2⟩
    · exact Or.inr ⟨he.symm, Or.inr ⟨hm.symm, hs⟩⟩
  · rintro (h | ⟨he, h2 | ⟨hm, hs⟩⟩)
    · exact Or.inl h
    · exact Or.inr ⟨he.symm, Or.inl h2⟩
    · exact Or.inr ⟨he.symm, Or.inr ⟨hm.symm, hs⟩⟩

/-- One auto-select-latest iteration from a state carrying the key of p
selects c exactly when c beats p in the selection key order. -/
theorem latestSelectionStep_keyState (env : SysEnv) (root : String) (p c : String) :
    latestSelectionStep env root (p, env.mtimeMs p, some (getAutoSelectionPriority p root)) c
      = if latestKeyLt env root p c then
          (c, env.mtimeMs c, some (getAutoSelectionPriority c root))
        else (p, env.mtimeMs p, some (getAutoSelectionPriority p root)) := by
  by_cases h : latestKeyLt env root p c
  · rw [if_pos h]
    simp only [latestSelectionStep]
    rw [if_pos ((latestCond_iff env root p c).mpr h)]
  · rw [if_neg h]
    simp only [latestSelectionStep]
    rw [if_neg (fun hc => h ((latestCond_iff env root p c).mp hc))]

/-- The first auto-select-latest iteration installs the key of the first
candidate over the sentinel negative-infinity state. -/
theorem latestSelectionStep_init (env : SysEnv) (root : String) (h : String) :
    latestSelectionStep env root (h, none, none) h
      = (h, env.mtimeMs h, some (getAutoSelectionPriority h root)) := by
  simp [latestSelectionStep, optNatLtB]

/-- The auto-select-latest scan from a state carrying the key of a maximal
element of the processed carrier ends at a maximal element of carrier plus
the remaining candidates. -/
theorem latestFold_max (env : SysEnv) (root : String) :
    ∀ (t : List String) (p : String) (carrier : List String),
      p ∈ carrier → (∀ y ∈ carrier, y = p ∨ latestKeyLt env root y p) →
      ∃ q, t.foldl (latestSelectionStep env root)
            (p, env.mtimeMs p, some (getAutoSelectionPriority p root))
          = (q, env.mtimeMs q, some (getAutoSelectionPriority q root))
        ∧ q ∈ carrier ++ t
        ∧ (∀ y ∈ carrier ++ t, y = q ∨ latestKeyLt env root y q) := by
  intro t
  induction t with
  | nil =>
      intro p carrier hp hmax
      exact ⟨p, rfl, by simpa using hp, by simpa using hmax⟩
  | cons c t ih =>
      intro p carrier hp hmax
      rw [List.foldl_cons, latestSelectionStep_keyState]
      by_cases h : latestKeyLt env root p c
      · rw [if_pos h]
        obtain ⟨q, hfold, hqmem, hqmax⟩ := ih c (carrier ++ [c])
          (List.mem_append.mpr (Or.inr (List.mem_singleton.mpr rfl)))
          (by
            intro y hy
            rcases List.mem_append.mp hy with hy' | hy'
            · rcases hmax y hy' with rfl | hlt
              · exact Or.inr h
              · exact Or.inr (latestKeyLt_trans env root y p c hlt h)
            · exact Or.inl (List.mem_singleton.mp hy'))
        refine ⟨q, hfold, ?_, ?_⟩
        · simpa [List.append_assoc] using hqmem
        · intro y hy
          exact hqmax y (by simpa [List.append_assoc] using hy)
      · rw [if_neg h]
        obtain ⟨q, hfold, hqmem, hqmax⟩ := ih p (carrier ++ [c])
          (List.mem_append.mpr (Or.inl hp))
          (by
            intro y hy
            rcases List.mem_append.mp hy with hy' | hy'
            · exact hmax y hy'
            · rw [List.mem_singleton.mp hy']
              exact latestKeyLt_total env root p c h)
        refine ⟨q, hfold, ?_, ?_⟩
        · simpa [List.append_assoc] using hqmem
        · intro y hy
          exact hqmax y (by simpa [List.append_assoc] using hy)

/-- C6: with no explicit file names, no send-everything phrasing and a
send-latest phrasing, the policy accepts exactly one candidate: a valid
candidate that every other valid candidate is below in the selection key
order (priority tier, then modification time, then lexicographic path). -/
theorem uploadPolicy_send_latest (env : SysEnv) (ps : List String) (msg ws : String)
    (h1 : inferRequestedFileNames msg = [])
    (h2 : shouldAutoSelectAllUploads msg = false)
    (h3 : shouldAutoSelectLatestUpload msg = true)
    (h4 : validResolvedCandidates env ps ws ≠ []) :
    ∃ m, enforceUploadPolicy env ps msg ws = [m]
      ∧ m ∈ validResolvedCandidates env ps ws
      ∧ ∀ y ∈ validResolvedCandidates env ps ws,
          y = m ∨ latestKeyLt env (jsResolve1 env.cwd ws) y m := by
  have hreq : (inferRequestedFileNames msg).map strLower = [] := by rw [h1]; rfl
  unfold enforceUploadPolicy
  simp only [hreq, List.isEmpty_nil, Bool.true_and, h2, h3, Bool.and_false,
    Bool.false_and, Bool.false_eq_true, if_false, Bool.not_false, Bool.true_and]
  rw [foldl_uploadPolicyStep_auto env (jsResolve1 env.cwd ws) true false (by simp) ps ([], [])]
  simp only [List.nil_append]
  have hV : validResolvedCandidates env ps ws
      = (ps.map (jsResolve1 env.cwd)).filter
          (fun abs => uploadCandidateValid env (jsResolve1 env.cwd ws) abs) := rfl
  rw [← hV]
  cases hv : validResolvedCandidates env ps ws with
  | nil => exact absurd hv h4
  | cons h t =>
      simp only [List.isEmpty_cons, Bool.not_false, Bool.and_true, if_true, List.headD_cons,
        List.foldl_cons, latestSelectionStep_init, List.not_mem_nil, if_neg, List.nil_append]
      obtain ⟨q, hfold, hqmem, hqmax⟩ := latestFold_max env (jsResolve1 env.cwd ws) t h [h]
        (List.mem_singleton.mpr rfl) (by intro y hy; exact Or.inl (List.mem_singleton.mp hy))
      rw [hfold]
      refine ⟨q, ?_, by simpa using hqmem, by simpa using hqmax⟩
      simp

/-- System state for the C6 witness: two attachments files, the first-listed
one older (modification time 1) and the other newer (modification time 2). -/
def envC6w : SysEnv :=
  ⟨"/", fun p => p == "/ws/attachments/a.png" || p == "/ws/attachments/b.png",
    fun p =>
      if p == "/ws/attachments/a.png" then some 2
      else if p == "/ws/attachments/b.png" then some 1
      else none⟩

/-- Witness for C6: for user text send that file with two attachment
candidates of differing modification times, exactly the more recently
modified one is accepted. -/
theorem uploadPolicy_send_latest_witness :
    (∃ m, enforceUploadPolicy envC6w ["/ws/attachments/b.png", "/ws/attachments/a.png"]
          "send that file" "/ws" = [m]
        ∧ m ∈ validResolvedCandidates envC6w
            ["/ws/attachments/b.png", "/ws/attachments/a.png"] "/ws"
        ∧ ∀ y ∈ validResolvedCandidates envC6w
              ["/ws/attachments/b.png", "/ws/attachments/a.png"] "/ws",
            y = m ∨ latestKeyLt envC6w (jsResolve1 envC6w.cwd "/ws") y m)
      ∧ enforceUploadPolicy envC6w ["/ws/attachments/b.png", "/ws/attachments/a.png"]
          "send that file" "/ws" = ["/ws/attachments/a.png"] := by
  refine ⟨uploadPolicy_send_latest envC6w ["/ws/attachments/b.png", "/ws/attachments/a.png"]
    "send that file" "/ws" (by decide) (by decide) (by decide) (by decide), ?_⟩
  decide

/-! Tool-output queue of upload-tool.ts: the persisted snapshot, its
normalization, the reset, and the drain. -/

/-- JSON values, for the persisted tool-queue file content. -/
inductive JsonVal
  | null
  | bool (b : Bool)
  | num (n : Int)
  | str (s : String)
  | arr (xs : List JsonVal)
  | obj (fields : List (String × JsonVal))

/-- Property lookup on a parsed JSON object. -/
def jsonLookup (fields : List (String × JsonVal)) (k : String) : Option JsonVal :=
  match fields.find? (fun kv => kv.1 == k) with
  | some kv => some kv.2
  | none => none

/-- String projection of a JSON value, as a typeof string check. -/
def isStringJson : JsonVal → Option String
  | JsonVal.str s => some s
  | _ => none

/-- The two persisted lists of the tool-output queue. -/
structure ToolQueueSnapshot where
  uploads : List String
  messages : List String
deriving DecidableEq, Repr

/-- normalizeQueueSnapshot: a non-object value yields the empty snapshot (a
JSON array also does, since it has no uploads or messages property); an
object contributes its string-array entries, with upload entries resolved
against the workspace root and kept only when they extend the root as a
string and exist on disk, message entries trimmed and kept when non-empty,
and both lists deduplicated in first-occurrence order. -/
def normalizeQueueSnapshot (env : SysEnv) (value : JsonVal) (workspaceDir : String) :
    ToolQueueSnapshot :=
  match value with
  | JsonVal.obj fields =>
      let workspaceRoot := jsResolve1 env.cwd workspaceDir
      let uploads :=
        match jsonLookup fields "uploads" with
        | some (JsonVal.arr xs) =>
            ((xs.filterMap isStringJson).map
                (fun item => jsResolve2 env.cwd workspaceRoot item)).filter
              (fun item => strStarts item workspaceRoot && env.fileExists item)
        | _ => []
      let messages :=
        match jsonLookup fields "messages" with
        | some (JsonVal.arr xs) =>
            ((xs.filterMap isStringJson).map trimJs).filter (fun m => m != "")
        | _ => []
      { uploads := dedupKeepFirst uploads, messages := dedupKeepFirst messages }
  | _ => { uploads := [], messages := [] }

/-- Persisted state of the tool-queue file: absent (reading throws),
malformed (parsing throws), or parsed JSON content. -/
inductive QueueFileState
  | absent
  | malformed
  | parsed (v : JsonVal)

/-- resetWorkspaceToolQueue writes the empty snapshot, so the file afterwards
parses to an object with two empty arrays. -/
def resetQueueFileState : QueueFileState :=
  QueueFileState.parsed
    (JsonVal.obj [("uploads", JsonVal.arr []), ("messages", JsonVal.arr [])])

/-- drainWorkspaceToolQueue: reads and normalizes the persisted content — an
absent or malformed file yielding the empty snapshot through the catch — and
always resets the file, returning the snapshot and the new file state. -/
def drainWorkspaceToolQueue (env : SysEnv) (st : QueueFileState) (workspaceDir : String) :
    ToolQueueSnapshot × QueueFileState :=
  match st with
  | QueueFileState.parsed v => (normalizeQueueSnapshot env v workspaceDir, resetQueueFileState)
  | _ => ({ uploads := [], messages := [] }, resetQueueFileState)

/-- Containment of a path inside a workspace, as the policy's own workspace
test states it: the root itself or a path strictly below the root. -/
def resolvesInsideWorkspace (root p : String) : Bool :=
  p == root || strStarts p (root ++ "/")

/-- C7 (amended): draining never fails — an absent or malformed queue file
yields the empty snapshot, the file is always reset — and every upload path
in the snapshot extends the resolved workspace root as a string prefix and
exists on disk; the string-prefix form (which also admits sibling
directories whose name extends the root) is the amendment forced by the
source. -/
theorem toolQueue_drain_containment (env : SysEnv) (st : QueueFileState) (ws : String) :
    ((st = QueueFileState.absent ∨ st = QueueFileState.malformed) →
        (drainWorkspaceToolQueue env st ws).1 = ⟨[], []⟩)
    ∧ (drainWorkspaceToolQueue env st ws).2 = resetQueueFileState
    ∧ ∀ p ∈ (drainWorkspaceToolQueue env st ws).1.uploads,
        strStarts p (jsResolve1 env.cwd ws) = true ∧ env.fileExists p = true := by
  refine ⟨?_, ?_, ?_⟩
  · rintro (rfl | rfl) <;> rfl
  · cases st <;> rfl
  · intro p hp
    cases st with
    | absent => simp [drainWorkspaceToolQueue] at hp
    | malformed => simp [drainWorkspaceToolQueue] at hp
    | parsed v =>
        cases v with
        | obj fields =>
            simp only [drainWorkspaceToolQueue, normalizeQueueSnapshot] at hp
            rcases hu : jsonLookup fields "uploads" with _ | uv
            · rw [hu] at hp
              simp [dedupKeepFirst] at hp
            · cases uv with
              | arr xs =>
                  rw [hu] at hp
                  have hp' := (mem_insertFold _ [] p).mp hp
                  simp only [List.not_mem_nil, false_or] at hp'
                  have := List.mem_filter.mp hp'
                  have hb := this.2
                  simp only [Bool.and_eq_true] at hb
                  exact hb
              | null => rw [hu] at hp; simp [dedupKeepFirst] at hp
              | bool b => rw [hu] at hp; simp [dedupKeepFirst] at hp
              | num n => rw [hu] at hp; simp [dedupKeepFirst] at hp
              | str s => rw [hu] at hp; simp [dedupKeepFirst] at hp
              | obj gs => rw [hu] at hp; simp [dedupKeepFirst] at hp
        | null => simp [drainWorkspaceToolQueue, normalizeQueueSnapshot] at hp
        | bool b => simp [drainWorkspaceToolQueue, normalizeQueueSnapshot] at hp
        | num n => simp [drainWorkspaceToolQueue, normalizeQueueSnapshot] at hp
        | str s => simp [drainWorkspaceToolQueue, normalizeQueueSnapshot] at hp
        | arr xs => simp [drainWorkspaceToolQueue, normalizeQueueSnapshot] at hp

/-- System state for the C7 counterexample: a file in a sibling directory
whose name extends the workspace root exists. -/
def envC7x : SysEnv := ⟨"/", fun p => p == "/wsx/evil", fun _ => none⟩

/-- Persisted queue content for the C7 counterexample. -/
def stC7x : QueueFileState :=
  QueueFileState.parsed
    (JsonVal.obj [("uploads", JsonVal.arr [JsonVal.str "/wsx/evil"]),
      ("messages", JsonVal.arr [])])

/-- C7 counterexample: for workspace /ws, a persisted upload entry /wsx/evil
survives the drain although it does not resolve inside the workspace,
refuting the claim that every returned upload path does. -/
theorem toolQueue_drain_containment_counterexample :
    (drainWorkspaceToolQueue envC7x stC7x "/ws").1.uploads = ["/wsx/evil"]
      ∧ resolvesInsideWorkspace "/ws" "/wsx/evil" = false := by
  exact ⟨by decide, by decide⟩

/-- Witness for C7: the amended containment applied to the counterexample
state, and the absent-file clause applied to an absent file. -/
theorem toolQueue_drain_containment_witness :
    (strStarts "/wsx/evil" (jsResolve1 envC7x.cwd "/ws") = true
        ∧ envC7x.fileExists "/wsx/evil" = true)
      ∧ (drainWorkspaceToolQueue envC7x QueueFileState.absent "/ws").1 = ⟨[], []⟩ := by
  refine ⟨?_, ?_⟩
  · exact (toolQueue_drain_containment envC7x stC7x "/ws").2.2 "/wsx/evil" (by decide)
  · exact (toolQueue_drain_containment envC7x QueueFileState.absent "/ws").1 (Or.inl rfl)

/-- C8: drain is idempotent-clearing — after a drain, an immediately
following drain on the resulting file state returns empty upload and message
lists, and a drain on an initially absent queue file also returns empty
lists. -/
theorem toolQueue_drain_idempotent (env : SysEnv) (ws : String) (st : QueueFileState) :
    (drainWorkspaceToolQueue env (drainWorkspaceToolQueue env st ws).2 ws).1 = ⟨[], []⟩
      ∧ (drainWorkspaceToolQueue env QueueFileState.absent ws).1 = ⟨[], []⟩ := by
  constructor
  · cases st <;> rfl
  · rfl

/-! SchedulerBridge message handling of scheduler-bridge.ts: the
scheduler-event branch of handleMessage and the finished-event formatter,
with deliveries and the missing-route warning returned as explicit effects. -/

/-- Truthiness of an optional string, as JavaScript sees it: present and
non-empty. -/
def optStrTruthy : Option String → Bool
  | some s => s != ""
  | none => false

/-- Scheduler event payload carried by a scheduler_event system message. -/
structure SchedEvent where
  jobId : Option String := none
  action : Option String := none
  status : Option String := none
  summary : Option String := none
  error : Option String := none
deriving DecidableEq, Repr

/-- Parsed data field of a scheduler_event message. -/
structure SchedulerEventData where
  cwd : Option String := none
  event : Option SchedEvent := none
deriving DecidableEq, Repr

/-- Stream message of the scheduler session, with its data already parsed
(a non-object data field is none, as parseSchedulerEventData yields null). -/
structure SDKMsg where
  type : String
  subtype : String
  data : Option SchedulerEventData := none
deriving DecidableEq, Repr

/-- Short-circuiting or over optional strings, as the JavaScript logical-or
of possibly absent, possibly empty strings with a literal fallback. -/
def jsOrStr (a : Option String) (b : String) : String :=
  match a with
  | some s => if s = "" then b else s
  | none => b

/-- formatFinishedEventText: one status line for a finished scheduler job. -/
def formatFinishedEventText (event : SchedEvent) : String :=
  let status := event.status.getD "ok"
  let details := jsOrStr event.summary (jsOrStr event.error "completed")
  if status = "ok" then
    "Scheduled job " ++ event.jobId.getD "unknown" ++ ": " ++ details
  else if status = "skipped" then
    "Scheduled job " ++ event.jobId.getD "unknown" ++ " was skipped: " ++ details
  else
    "Scheduled job " ++ event.jobId.getD "unknown" ++ " failed: " ++ details

/-- handleMessage for one workspace: the state is the workspace's routing
table when the workspace is registered; the result is the new state, the
delivery-callback invocations, and the count of missing-route warnings. -/
def handleMessage (state : Option SchedulerRoutes) (message : SDKMsg) :
    Option SchedulerRoutes × List (SchedulerRoute × String) × Nat :=
  if message.type != "system" || message.subtype != "scheduler_event" then (state, [], 0)
  else
    match state with
    | none => (none, [], 0)
    | some st =>
        match message.data with
        | none => (some st, [], 0)
        | some parsed =>
            match parsed.event with
            | none => (some st, [], 0)
            | some event =>
                if !optStrTruthy event.action || !optStrTruthy event.jobId then (some st, [], 0)
                else
                  let jobId := event.jobId.getD ""
                  if event.action == some "added" then (some (st.bindJob jobId), [], 0)
                  else if event.action == some "removed" then (some (st.removeJob jobId), [], 0)
                  else if event.action != some "finished" then (some st, [], 0)
                  else
                    match st.resolve jobId with
                    | none => (some st, [], 1)
                    | some route => (some st, [(route, formatFinishedEventText event)], 0)

/-- C9: a finished scheduler event with status ok whose job id resolves to a
route produces exactly one delivery call, with text containing the job
identifier and the summary, and leaves the routing state unchanged; a
finished event whose job id resolves to no route produces zero delivery
calls, one logged warning, and the unchanged state — the notification is
dropped, not queued for retry. -/
theorem schedulerBridge_finished_delivery :
    (∀ (st : SchedulerRoutes) (ev : SchedEvent) (route : SchedulerRoute)
        (d : SchedulerEventData) (j smry : String),
      d.event = some ev →
      ev.action = some "finished" → ev.jobId = some j → j ≠ "" →
      ev.status = some "ok" → ev.summary = some smry → smry ≠ "" →
      st.resolve j = some route →
      handleMessage (some st) ⟨"system", "scheduler_event", some d⟩
          = (some st, [(route, formatFinishedEventText ev)], 0)
        ∧ strContains (formatFinishedEventText ev) j
        ∧ strContains (formatFinishedEventText ev) smry)
    ∧ (∀ (st : SchedulerRoutes) (ev : SchedEvent) (d : SchedulerEventData) (j : String),
      d.event = some ev →
      ev.action = some "finished" → ev.jobId = some j → j ≠ "" →
      st.resolve j = none →
      handleMessage (some st) ⟨"system", "scheduler_event", some d⟩ = (some st, [], 1)) := by
  constructor
  · intro st ev route d j smry hd hact hjob hj hstat hsum hsmry hres
    have hfmt : formatFinishedEventText ev
        = "Scheduled job " ++ j ++ ": " ++ smry := by
      simp [formatFinishedEventText, jsOrStr, hstat, hsum, hjob, hsmry]
    refine ⟨?_, ?_, ?_⟩
    · simp [handleMessage, hd, hact, hjob, optStrTruthy, bne_iff_ne, hj, hres]
    · rw [hfmt]
      refine ⟨"Scheduled job ".data, (": " ++ smry).data, ?_⟩
      simp [String.data_append]
    · rw [hfmt]
      refine ⟨("Scheduled job " ++ j ++ ": ").data, [], ?_⟩
      simp [String.data_append]
  · intro st ev d j hd hact hjob hj hres
    simp [handleMessage, hd, hact, hjob, optStrTruthy, bne_iff_ne, hj, hres]

/-- Routing table for the C9 witness: latest route set, then one job bound. -/
def routesC9 : SchedulerRoutes := (emptyRoutes.setLatestRoute routeW).bindJob "job-1"

/-- Scheduler event for the C9 witness: job-1 finished with status ok. -/
def evC9 : SchedEvent :=
  { jobId := some "job-1", action := some "finished", status := some "ok",
    summary := some "report sent", error := none }

/-- Scheduler event for the C9 witness's unresolved case. -/
def evC9x : SchedEvent :=
  { jobId := some "job-2", action := some "finished", status := some "ok",
    summary := some "report sent", error := none }

/-- Witness for C9: a bound finished event yields one delivery whose text
contains the job id and summary; on an empty routing table the same event
yields no delivery and one warning. -/
theorem schedulerBridge_finished_delivery_witness :
    (handleMessage (some routesC9) ⟨"system", "scheduler_event", some ⟨none, some evC9⟩⟩
          = (some routesC9, [(routeW, formatFinishedEventText evC9)], 0)
        ∧ strContains (formatFinishedEventText evC9) "job-1"
        ∧ strContains (formatFinishedEventText evC9) "report sent")
      ∧ handleMessage (some emptyRoutes) ⟨"system", "scheduler_event", some ⟨none, some evC9x⟩⟩
          = (some emptyRoutes, [], 1) := by
  constructor
  · exact schedulerBridge_finished_delivery.1 routesC9 evC9 routeW ⟨none, some evC9⟩
      "job-1" "report sent" rfl rfl rfl (by decide) rfl rfl (by decide) (by decide)
  · exact schedulerBridge_finished_delivery.2 emptyRoutes evC9x ⟨none, some evC9x⟩
      "job-2" rfl rfl rfl (by decide) (by decide)

/-! SendFileToChat tool handler of upload-tool.ts: queueFile validates the
path against the workspace and collects it into the pending list. -/

/-- queueFile: resolves the tool input path, rejects it when it does not
extend the resolved workspace root as a string or does not exist, and
otherwise appends it to the collector's pending list; returns the tool reply
and the new pending list. -/
def queueFile (env : SysEnv) (absWorkspace : String) (pending : List String)
    (filePath : String) : String × List String :=
  let absPath := jsResolve1 env.cwd filePath
  if !strStarts absPath absWorkspace then
    ("Error: file must be within your workspace " ++ absWorkspace, pending)
  else if !env.fileExists absPath then
    ("Error: file not found at " ++ absPath, pending)
  else
    ("File queued for upload: " ++ absPath, pending ++ [absPath])

/-- A string keeps its leading substring when extended on the right, provided
the leading substring fits inside the left part. -/
theorem strStarts_append_of (a b pre : String) (h : strStarts a pre = true)
    (hlen : pre.data.length ≤ a.data.length) : strStarts (a ++ b) pre = true := by
  unfold strStarts at h ⊢
  rw [String.data_append, List.take_append_of_le_length hlen]
  exact h

/-- C10 (amended): queueFile returns an Error-prefixed reply and leaves the
pending list unchanged when the resolved path does not extend the resolved
workspace root as a string prefix, or does not exist; otherwise it appends
exactly the resolved path and returns a success reply — the string-prefix
form of the workspace test (which also admits sibling directories whose name
extends the root) is the amendment forced by the source. -/
theorem queueFile_workspace_validation (env : SysEnv) (absWorkspace : String)
    (pending : List String) (fp : String) :
    (strStarts (jsResolve1 env.cwd fp) absWorkspace = false →
        queueFile env absWorkspace pending fp
            = ("Error: file must be within your workspace " ++ absWorkspace, pending)
          ∧ strStarts (queueFile env absWorkspace pending fp).1 "Error:" = true)
      ∧ (strStarts (jsResolve1 env.cwd fp) absWorkspace = true →
          env.fileExists (jsResolve1 env.cwd fp) = false →
          queueFile env absWorkspace pending fp
              = ("Error: file not found at " ++ jsResolve1 env.cwd fp, pending)
            ∧ strStarts (queueFile env absWorkspace pending fp).1 "Error:" = true)
      ∧ (strStarts (jsResolve1 env.cwd fp) absWorkspace = true →
          env.fileExists (jsResolve1 env.cwd fp) = true →
          queueFile env absWorkspace pending fp
            = ("File queued for upload: " ++ jsResolve1 env.cwd fp,
                pending ++ [jsResolve1 env.cwd fp])) := by
  refine ⟨?_, ?_, ?_⟩
  · intro h1
    have he : queueFile env absWorkspace pending fp
        = ("Error: file must be within your workspace " ++ absWorkspace, pending) := by
      simp [queueFile, h1]
    refine ⟨he, ?_⟩
    rw [he]
    exact strStarts_append_of "Error: file must be within your workspace " absWorkspace
      "Error:" (by decide) (by decide)
  · intro h1 h2
    have he : queueFile env absWorkspace pending fp
        = ("Error: file not found at " ++ jsResolve1 env.cwd fp, pending) := by
      simp [queueFile, h1, h2]
    refine ⟨he, ?_⟩
    rw [he]
    exact strStarts_append_of "Error: file not found at " (jsResolve1 env.cwd fp)
      "Error:" (by decide) (by decide)
  · intro h1 h2
    simp [queueFile, h1, h2]

/-- System state for the C10 counterexample: a file in a sibling directory
whose name extends the workspace root exists. -/
def envC10x : SysEnv := ⟨"/", fun p => p == "/ws2/f", fun _ => none⟩

/-- C10 counterexample: for resolved workspace /ws, the input /ws2/f — which
is outside the workspace root — is accepted and collected, refuting the
claim that every path outside the workspace root yields an Error reply and
an unchanged pending list. -/
theorem queueFile_workspace_validation_counterexample :
    queueFile envC10x (jsResolve1 envC10x.cwd "/ws") [] "/ws2/f"
        = ("File queued for upload: /ws2/f", ["/ws2/f"])
      ∧ resolvesInsideWorkspace "/ws" "/ws2/f" = false := by
  exact ⟨by decide, by decide⟩

/-- Witness for C10: a missing file inside the workspace yields an
Error-prefixed reply and no collection; an existing file inside the
workspace is collected. -/
theorem queueFile_workspace_validation_witness :
    (queueFile envC10x "/ws" [] "/ws/absent.txt"
          = ("Error: file not found at /ws/absent.txt", [])
        ∧ strStarts (queueFile envC10x "/ws" [] "/ws/absent.txt").1 "Error:" = true)
      ∧ queueFile envC10x (jsResolve1 envC10x.cwd "/ws") [] "/ws2/f"
          = ("File queued for upload: /ws2/f", ["/ws2/f"]) := by
  constructor
  · exact (queueFile_workspace_validation envC10x "/ws" [] "/ws/absent.txt").2.1
      (by decide) (by decide)
  · exact (queueFile_workspace_validation envC10x (jsResolve1 envC10x.cwd "/ws") []
      "/ws2/f").2.2 (by decide) (by decide)

/-! Session persistence of runAgent in upload-tool.ts: the stream
observation of the session id and the file-send-tool availability, and the
clear/save decision on completion. -/

/-- Tool names any of which makes a session file-return capable. -/
def FILE_SEND_TOOL_CANDIDATES : List String := ["SendFileToChat", "send_file_to_chat"]

/-- Stream events of one run, reduced to what the session logic observes: a
system message carrying the session id and the reported tool catalog, a
result message carrying the session id, and anything else. -/
inductive RunEvt
  | system (sessionId : String) (tools : List String)
  | result (sessionId : String)
  | other

/-- One stream event's effect on the observed session id and the latched
missing-file-send-tools flag. -/
def observeRunEvent : String × Bool → RunEvt → String × Bool
  | (_, missing), RunEvt.system s tools =>
      let availableFileSendTools := FILE_SEND_TOOL_CANDIDATES.filter
        (fun t => tools.contains t)
      (s, missing || availableFileSendTools.isEmpty)
  | (_, missing), RunEvt.result s => (s, missing)
  | st, RunEvt.other => st

/-- Observation of a whole run's event stream, from an empty session id and
an unset degraded flag. -/
def observeRunEvents (events : List RunEvt) : String × Bool :=
  events.foldl observeRunEvent ("", false)

/-- Session id at the end of the stream, falling back to the query handle's
session id when no event carried one. -/
def finalSessionId (events : List RunEvt) (fallback : String) : String :=
  let sid := (observeRunEvents events).1
  if sid = "" then fallback else sid

/-- Session store value after the completion step of runAgent, modelling the
persisted per-workspace session id. Modelled from the spec: the sessions
module (getSessionId, saveSessionId, clearSessionId) is not part of the
sources, so the store is the single opaque string per workspace the spec
describes — clearSessionId removes it and saveSessionId replaces it. -/
def runCompletionSessionStore (existingSessionId : Option String) (events : List RunEvt)
    (fallbackSessionId : String) : Option String :=
  let sessionId := finalSessionId events fallbackSessionId
  let missingFileSendTools := (observeRunEvents events).2
  let store :=
    if missingFileSendTools && optStrTruthy existingSessionId then none
    else existingSessionId
  if sessionId != "" && !(missingFileSendTools && optStrTruthy existingSessionId) then
    some sessionId
  else store

/-- C1 (amended): on completion, when the session is degraded (no
file-return-capable tool on any system event) and a previously persisted
session id existed, the observed id is not persisted and the stored id is
cleared; when the session is not degraded and a session id was observed,
that id is persisted — a degraded run with no previously persisted id still
persists its observed id, which is the amendment forced by the source. -/
theorem runAgent_session_persistence (existing : Option String) (events : List RunEvt)
    (fb : String) :
    ((observeRunEvents events).2 = true → optStrTruthy existing = true →
        runCompletionSessionStore existing events fb = none)
      ∧ ((observeRunEvents events).2 = false → finalSessionId events fb ≠ "" →
          runCompletionSessionStore existing events fb = some (finalSessionId events fb)) := by
  constructor
  · intro hm ht
    simp [runCompletionSessionStore, hm, ht]
  · intro hm hs
    simp [runCompletionSessionStore, hm, bne_iff_ne, hs]

/-- C1 counterexample: a degraded run with no previously persisted session id
persists the observed session id, refuting the claim that a degraded session
is never persisted and the next run starts fresh. -/
theorem runAgent_session_persistence_counterexample :
    (observeRunEvents [RunEvt.system "s" []]).2 = true
      ∧ runCompletionSessionStore none [RunEvt.system "s" []] "" = some "s" := by
  exact ⟨by decide, by decide⟩

/-- Witness for C1: a degraded resumed run clears the store; a healthy run
persists the observed session id. -/
theorem runAgent_session_persistence_witness :
    runCompletionSessionStore (some "old") [RunEvt.system "s" []] "" = none
      ∧ runCompletionSessionStore (some "old") [RunEvt.system "s" ["SendFileToChat"]] ""
          = some (finalSessionId [RunEvt.system "s" ["SendFileToChat"]] "") := by
  constructor
  · exact (runAgent_session_persistence (some "old") [RunEvt.system "s" []] "").1
      (by decide) (by decide)
  · exact (runAgent_session_persistence (some "old")
      [RunEvt.system "s" ["SendFileToChat"]] "").2 (by decide) (by decide)

end PapertClaw
